import Mathlib

/-!
# Verification of the Indian Market Price Advisor core logic

Shallow embedding of `main.py`: the commodity matcher, the record fetch
orchestrator with its cache fallback, the price parser, the aggregator,
the trend predictor and the price alert rule.  Strings are modelled as
Lean `String`s (lists of characters); Python floats are modelled as
exact rationals `ℚ`; the single mutable resource (the cache file) is
modelled by explicit state passing; the two HTTP calls are modelled by
an explicit response argument.
-/

namespace MandiAdvisor

/-- Whitespace set of Python's default `str.split` / `str.strip` (ASCII fragment). -/
def isSpaceChar (c : Char) : Bool :=
  c == ' ' || c == '\t' || c == '\n' || c == '\r' || c == '\x0b' || c == '\x0c'

/-- ASCII fragment of Python `str.lower` on one character. -/
def lowerChar (c : Char) : Char :=
  if 65 ≤ c.toNat ∧ c.toNat ≤ 90 then Char.ofNat (c.toNat + 32) else c

/-- Python `str.lower` on a character list. -/
def lowerL (l : List Char) : List Char := l.map lowerChar

/-- Python `str.strip()` on a character list: drop whitespace from both ends. -/
def stripL (l : List Char) : List Char :=
  List.rdropWhile isSpaceChar (List.dropWhile isSpaceChar l)

/-- Python `str.lower` on strings. -/
def pyLower (s : String) : String := ⟨lowerL s.toList⟩

/-- Python `str.strip()` on strings. -/
def pyStrip (s : String) : String := ⟨stripL s.toList⟩

/-- Python `str.split()` with no argument: split on runs of whitespace,
producing no empty tokens. -/
def splitWs : List Char → List (List Char)
  | [] => []
  | c :: cs =>
    if isSpaceChar c then splitWs cs
    else
      match cs with
      | [] => [[c]]
      | d :: _ =>
        if isSpaceChar d then [c] :: splitWs cs
        else
          match splitWs cs with
          | [] => [[c]]
          | t :: ts => (c :: t) :: ts

/-- Python substring test `big.find(small) != -1`, i.e. `small` occurs
contiguously inside `big`. -/
def hasSub (big small : List Char) : Bool :=
  if small.isPrefixOf big then true
  else
    match big with
    | [] => false
    | _ :: t => hasSub t small

/-- A raw record as returned by the data.gov.in endpoint: an open string map,
restricted to the keys the program ever reads.  A missing key is `none`;
JSON values are taken as their string form. -/
structure RawRecord where
  commodity : Option String := none
  commodity_name : Option String := none
  state_name : Option String := none
  state : Option String := none
  market : Option String := none
  market_name : Option String := none
  modal_price : Option String := none
  modalprice : Option String := none
  arrival_date : Option String := none
  date : Option String := none
  date_of_arrival : Option String := none
deriving DecidableEq, Repr

/-- Python `a or d` for an optional string `a` (empty string is falsy). -/
def pyOrStr (a : Option String) (d : String) : String :=
  match a with
  | none => d
  | some s => if s.isEmpty then d else s

/-- `rec.get("commodity") or rec.get("commodity_name") or ""` from
`smart_fetch_records` / `safe_load_cached_for_commodity` / `parse_price_records`. -/
def commodityRaw (r : RawRecord) : String :=
  pyOrStr r.commodity (pyOrStr r.commodity_name "")

/-- The strict commodity match test from `main.py` lines 77-81 and 92-95:
the candidate field is stripped and lowercased; an empty result never
matches; otherwise exact equality, whole-token membership or prefix.
The query is passed in already normalized by the caller. -/
def matchesQ (q field : String) : Bool :=
  let com := lowerL (stripL field.toList)
  if com.isEmpty then false
  else q.toList == com || (splitWs com).contains q.toList || q.toList.isPrefixOf com

/-- The C2 claim text, taken literally: both inputs are lowercased but
neither is stripped; an empty candidate field yields false. -/
def matchesClaimLiteral (q field : String) : Bool :=
  let f := lowerL field.toList
  let q2 := lowerL q.toList
  if f.isEmpty then false
  else q2 == f || (splitWs f).contains q2 || q2.isPrefixOf f

/-- The amended C2 claim: both the query and the candidate field are
stripped of surrounding whitespace and lowercased before the
exact / token / prefix test; a field that is empty after stripping
never matches. -/
def matchesAmendedSpec (q field : String) : Prop :=
  let q2 := lowerL (stripL q.toList)
  let f := lowerL (stripL field.toList)
  f ≠ [] ∧ (q2 = f ∨ q2 ∈ splitWs f ∨ q2 <+: f)

/-- The cache file contents: a timestamp and the persisted raw records
(`save_cache` / `load_cache`).  `none` stands for a missing, unreadable or
malformed cache file, which `load_cache` reports as the empty record list. -/
structure CacheEntry where
  timestamp : String
  records : List RawRecord
deriving DecidableEq, Repr

/-- `load_cache`: the persisted records, or `[]` when the file is missing
or unreadable. -/
def load_cache (cache : Option CacheEntry) : List RawRecord :=
  match cache with
  | none => []
  | some e => e.records

/-- Outcome of the single HTTP request in `fetch_mandi_records_from_api`:
`failure` covers any raised exception (network, HTTP status, JSON decode);
`success recs` is a decoded body whose `records` entry is `recs`
(a missing or falsy entry having already been folded to `[]` by
`j.get("records", []) or []`). -/
inductive ApiResult where
  | failure : ApiResult
  | success : List RawRecord → ApiResult
deriving DecidableEq, Repr

/-- The record list an `ApiResult` makes `fetch_mandi_records_from_api` return. -/
def apiRecordsOf : ApiResult → List RawRecord
  | ApiResult.failure => []
  | ApiResult.success recs => recs

/-- `fetch_mandi_records_from_api` with the cache file state passed
explicitly: returns the fetched records and the new cache state.  On a
non-empty successful fetch the cache is overwritten wholesale with the
fetched records (`save_cache`); otherwise it is untouched. -/
def fetch_mandi_records_from_api (resp : ApiResult) (now : String)
    (cache : Option CacheEntry) : List RawRecord × Option CacheEntry :=
  match resp with
  | ApiResult.failure => ([], cache)
  | ApiResult.success recs =>
    if recs.isEmpty then (recs, cache) else (recs, some ⟨now, recs⟩)

/-- `safe_load_cached_for_commodity`: cached records whose commodity field
passes the strict match test against `pyLower item`. -/
def safe_load_cached_for_commodity (item : String)
    (cache : Option CacheEntry) : List RawRecord :=
  let cached := load_cache cache
  if cached.isEmpty then []
  else
    let item_l := pyLower item
    cached.filter (fun r => matchesQ item_l (commodityRaw r))

/-- `smart_fetch_records` with the API response and cache state explicit:
normalize the item, do the live fetch (which may overwrite the cache),
keep the strictly matching live records; if the live call returned
records but none matched, return `[]`; only if the live call returned
nothing at all fall back to the (strictly filtered) cache. -/
def smart_fetch_records (item : String) (resp : ApiResult) (now : String)
    (cache : Option CacheEntry) : List RawRecord × Option CacheEntry :=
  let item_clean := pyLower (pyStrip item)
  let fetched := fetch_mandi_records_from_api resp now cache
  let api_records := fetched.1
  let valid := api_records.filter (fun r => matchesQ item_clean (commodityRaw r))
  if ¬ valid.isEmpty then (valid, fetched.2)
  else if ¬ api_records.isEmpty then ([], fetched.2)
  else (safe_load_cached_for_commodity item_clean fetched.2, fetched.2)

/-- Value of one decimal digit character. -/
def digitVal (c : Char) : Nat := c.toNat - 48

/-- Numeric value of a digit string. -/
def digitsVal (l : List Char) : Nat :=
  l.foldl (fun a c => a * 10 + digitVal c) 0

/-- Unsigned mantissa of a Python float literal: digits with an optional
decimal point, at least one digit overall. -/
def parseMantissa (l : List Char) : Option ℚ :=
  let intPart := l.takeWhile Char.isDigit
  let rest := l.dropWhile Char.isDigit
  match rest with
  | [] => if intPart.isEmpty then none else some ((digitsVal intPart : ℚ))
  | '.' :: rest2 =>
    let fracPart := rest2.takeWhile Char.isDigit
    let rest3 := rest2.dropWhile Char.isDigit
    if rest3.isEmpty ∧ ¬(intPart.isEmpty ∧ fracPart.isEmpty) then
      some ((digitsVal intPart : ℚ) + (digitsVal fracPart : ℚ) / (10 : ℚ) ^ fracPart.length)
    else none
  | _ => none

/-- Signed mantissa. -/
def parseSignedMantissa (l : List Char) : Option ℚ :=
  match l with
  | '+' :: r => parseMantissa r
  | '-' :: r => (parseMantissa r).map Neg.neg
  | _ => parseMantissa l

/-- Signed exponent digits. -/
def parseExp (l : List Char) : Option Int :=
  match l with
  | '+' :: r => if !r.isEmpty && r.all Char.isDigit then some ((digitsVal r : Int)) else none
  | '-' :: r => if !r.isEmpty && r.all Char.isDigit then some (-(digitsVal r : Int)) else none
  | _ => if !l.isEmpty && l.all Char.isDigit then some ((digitsVal l : Int)) else none

/-- Python `float(s)` on the decimal-literal fragment the price data uses:
surrounding whitespace, an optional sign, digits with an optional decimal
point, and an optional exponent; the result is the exact rational value. -/
def parseFloat (s : String) : Option ℚ :=
  let l := stripL s.toList
  let mant := l.takeWhile (fun c => !(c == 'e' || c == 'E'))
  let rest := l.dropWhile (fun c => !(c == 'e' || c == 'E'))
  match rest with
  | [] => parseSignedMantissa mant
  | _ :: expPart =>
    match parseSignedMantissa mant, parseExp expPart with
    | some m, some e => some (m * (10 : ℚ) ^ e)
    | _, _ => none

/-- A canonical parsed price record (`parse_price_records` output). -/
structure PriceRecord where
  commodity : String
  state : String
  market : String
  price : ℚ
  date : String
deriving DecidableEq, Repr

/-- `parse_price_records`: normalize field aliases, require a non-empty
numeric modal price, keep everything else as (possibly empty) trimmed
strings; records whose price is missing or non-numeric are dropped. -/
def parse_price_records (records : List RawRecord) : List PriceRecord :=
  records.filterMap (fun rec =>
    let commodity := pyStrip (commodityRaw rec)
    let modal := pyOrStr rec.modal_price (pyOrStr rec.modalprice "")
    if modal.isEmpty then none
    else
      match parseFloat modal with
      | none => none
      | some price =>
        some ⟨commodity,
          pyStrip (pyOrStr rec.state_name (pyOrStr rec.state "")),
          pyStrip (pyOrStr rec.market (pyOrStr rec.market_name "")),
          price,
          pyStrip (pyOrStr rec.arrival_date (pyOrStr rec.date (pyOrStr rec.date_of_arrival "")))⟩)

/-- `statistics.mean` on the exact rationals (callers guard non-emptiness). -/
def meanQ (l : List ℚ) : ℚ := l.sum / (l.length : ℚ)

/-- Sample variance `sum((x - mean)^2) / (n - 1)`, the square of
`statistics.stdev`.  The program's `stddev` value is its square root,
which is zero exactly when this is zero. -/
def sampleVarQ (l : List ℚ) : ℚ :=
  (l.map (fun x => (x - meanQ l) ^ 2)).sum / ((l.length : ℚ) - 1)

/-- Insert a keyed value into an association list, appending the value to
an existing key's list or adding the key at the end (Python
`dict.setdefault(k, []).append(v)` with insertion-ordered dicts). -/
def addKeyed {κ : Type} [DecidableEq κ] :
    List (κ × List ℚ) → κ → ℚ → List (κ × List ℚ)
  | [], k, v => [(k, [v])]
  | (k0, vs) :: rest, k, v =>
    if k0 = k then (k0, vs ++ [v]) :: rest else (k0, vs) :: addKeyed rest k v

/-- Group a keyed sequence into an insertion-ordered association list. -/
def groupKeyed {κ : Type} [DecidableEq κ] (l : List (κ × ℚ)) : List (κ × List ℚ) :=
  l.foldl (fun acc kv => addKeyed acc kv.1 kv.2) []

/-- The global statistics block of `compute_state_aggregates`
(`stddevSq` carries the squared standard deviation, see `sampleVarQ`). -/
structure Stats where
  min : ℚ
  max : ℚ
  avg : ℚ
  count : Nat
  stddevSq : ℚ
deriving DecidableEq, Repr

/-- `compute_state_aggregates`: per-state mean prices (state defaulting to
"Unknown") and, when any price exists, the global min / max / mean /
count / standard deviation. -/
def compute_state_aggregates (parsed : List PriceRecord) :
    List (String × ℚ) × Option Stats :=
  let keyed := parsed.map (fun p =>
    ((if p.state.isEmpty then "Unknown" else p.state), p.price))
  let state_avg := (groupKeyed keyed).map (fun g => (g.1, meanQ g.2))
  let all_prices := parsed.map (fun p => p.price)
  match all_prices with
  | [] => (state_avg, none)
  | x :: xs =>
    (state_avg,
      some ⟨xs.foldl min x, xs.foldl max x, meanQ all_prices, all_prices.length,
        if 1 < all_prices.length then sampleVarQ all_prices else 0⟩)

/-- A calendar date as produced by `datetime.strptime`. -/
structure DateT where
  y : Nat
  m : Nat
  d : Nat
deriving DecidableEq, Repr

/-- Gregorian leap year rule. -/
def isLeap (y : Nat) : Bool := y % 4 == 0 && (y % 100 != 0 || y % 400 == 0)

/-- Days in a month. -/
def daysInMonth (y m : Nat) : Nat :=
  if m == 2 then (if isLeap y then 29 else 28)
  else if m == 4 || m == 6 || m == 9 || m == 11 then 30
  else 31

/-- Validity of a (year, month, day) triple for `datetime`: years 1-9999,
real calendar days. -/
def validDate (y m d : Nat) : Bool :=
  1 ≤ y && y ≤ 9999 && 1 ≤ m && m ≤ 12 && 1 ≤ d && d ≤ daysInMonth y m

/-- Split a character list on every occurrence of a separator
(Python `str.split(sep)`:  n separators yield n+1 pieces). -/
def splitOnChar (sep : Char) : List Char → List (List Char)
  | [] => [[]]
  | c :: cs =>
    if c == sep then [] :: splitOnChar sep cs
    else
      match splitOnChar sep cs with
      | [] => [[c]]
      | t :: ts => (c :: t) :: ts

/-- `strptime` year field: exactly four digits. -/
def parseY (l : List Char) : Option Nat :=
  if l.length == 4 && l.all Char.isDigit then some (digitsVal l) else none

/-- `strptime` month/day field: one or two digits (range checked later). -/
def parseMD (l : List Char) : Option Nat :=
  if (l.length == 1 || l.length == 2) && l.all Char.isDigit then some (digitsVal l)
  else none

/-- Assemble a validated date. -/
def mkDate (y m d : Nat) : Option DateT :=
  if validDate y m d then some ⟨y, m, d⟩ else none

/-- `strptime(text, "%Y-%m-%d")` (success/failure and value). -/
def tryFmtYmdDash (text : List Char) : Option DateT :=
  match splitOnChar '-' text with
  | [ys, ms, ds] =>
    match parseY ys, parseMD ms, parseMD ds with
    | some y, some m, some d => mkDate y m d
    | _, _, _ => none
  | _ => none

/-- `strptime(text, "%d-%m-%Y")`. -/
def tryFmtDmyDash (text : List Char) : Option DateT :=
  match splitOnChar '-' text with
  | [ds, ms, ys] =>
    match parseMD ds, parseMD ms, parseY ys with
    | some d, some m, some y => mkDate y m d
    | _, _, _ => none
  | _ => none

/-- `strptime(text, "%Y/%m/%d")`. -/
def tryFmtYmdSlash (text : List Char) : Option DateT :=
  match splitOnChar '/' text with
  | [ys, ms, ds] =>
    match parseY ys, parseMD ms, parseMD ds with
    | some y, some m, some d => mkDate y m d
    | _, _, _ => none
  | _ => none

/-- The date recognizer of `simple_trend_predict`: first 10 characters of
the field, tried against the three accepted formats in program order. -/
def tryParseDate (s : String) : Option DateT :=
  let text := s.toList.take 10
  match tryFmtYmdDash text with
  | some dt => some dt
  | none =>
    match tryFmtDmyDash text with
    | some dt => some dt
    | none => tryFmtYmdSlash text

/-- The (date, price) pairs `simple_trend_predict` extracts: records with a
non-empty date field whose first 10 characters parse under one of the
three formats. -/
def extractPairs (parsed : List PriceRecord) : List (DateT × ℚ) :=
  parsed.filterMap (fun p =>
    if p.date.isEmpty then none
    else (tryParseDate p.date).map (fun dt => (dt, p.price)))

/-- Date comparison used for sorting the day buckets. -/
def dateLe (a b : DateT) : Bool :=
  if a.y = b.y then
    (if a.m = b.m then decide (a.d ≤ b.d) else decide (a.m < b.m))
  else decide (a.y < b.y)

/-- Insertion step of the bucket sort. -/
def insertByDate (x : DateT × ℚ) : List (DateT × ℚ) → List (DateT × ℚ)
  | [] => [x]
  | y :: ys => if dateLe x.1 y.1 then x :: y :: ys else y :: insertByDate x ys

/-- `sorted(..., key=lambda x: x[0])` on the distinct day buckets. -/
def sortByDate : List (DateT × ℚ) → List (DateT × ℚ)
  | [] => []
  | x :: xs => insertByDate x (sortByDate xs)

/-- `items[-n:]`: the last `n` elements (all of them when fewer). -/
def lastN {α : Type} (n : Nat) (l : List α) : List α := l.drop (l.length - n)

/-- The sorted per-day mean price series of `simple_trend_predict`. -/
def dayItems (parsed : List PriceRecord) : List (DateT × ℚ) :=
  sortByDate ((groupKeyed (extractPairs parsed)).map (fun g => (g.1, meanQ g.2)))

/-- Ordinary least squares extrapolation of `simple_trend_predict`: fit a
line over bucket index 0..n-1, evaluate at n, clamp non-negative. -/
def olsPredict (recent : List (DateT × ℚ)) : ℚ :=
  let n := recent.length
  let xs : List ℚ := (List.range n).map (fun i => (i : ℚ))
  let ys : List ℚ := recent.map (fun r => r.2)
  let x_mean := xs.sum / (n : ℚ)
  let y_mean := ys.sum / (n : ℚ)
  let num := (List.zipWith (fun x y => (x - x_mean) * (y - y_mean)) xs ys).sum
  let den := (xs.map (fun x => (x - x_mean) ^ 2)).sum
  let slope := if den ≠ 0 then num / den else 0
  let intercept := y_mean - slope * x_mean
  max (intercept + slope * (n : ℚ)) 0

/-- The date-bucketed primary path of `simple_trend_predict`: `some` of the
OLS extrapolation over the last `days_back` day buckets when at least two
buckets exist, `none` otherwise (the code then falls through). -/
def primaryValue (parsed : List PriceRecord) (days_back : Nat := 7) : Option ℚ :=
  let recent := lastN days_back (dayItems parsed)
  if 2 ≤ recent.length then some (olsPredict recent) else none

/-- The raw-price fallback path of `simple_trend_predict`: last
`days_back` raw prices in input order, mean consecutive difference added
to the last price, clamped non-negative; `none` with fewer than two raw
prices. -/
def fallbackValue (parsed : List PriceRecord) (days_back : Nat := 7) : Option ℚ :=
  let raw := parsed.map (fun p => p.price)
  if 2 ≤ raw.length then
    let raw_last := lastN (min raw.length days_back) raw
    let diffs := List.zipWith (fun a b => b - a) raw_last raw_last.tail
    let avg_diff := if diffs.isEmpty then 0 else meanQ diffs
    some (max (raw_last.getLastD 0 + avg_diff) 0)
  else none

/-- `simple_trend_predict`: the primary date-bucketed path when it has at
least two buckets, else the raw fallback, else `none`. -/
def simple_trend_predict (parsed : List PriceRecord) (days_back : Nat := 7) : Option ℚ :=
  match primaryValue parsed days_back with
  | some v => some v
  | none => fallbackValue parsed days_back

/-- A price alert as assembled in `main` (lines 340-347): direction and
the advised percentage as rendered with one decimal place (tenths of a
percent, rounded half-to-even as Python string formatting does). -/
structure PriceAlert where
  rise : Bool
  pctTenths : Int
deriving DecidableEq, Repr

/-- Round half to even. -/
def roundHalfEven (q : ℚ) : Int :=
  let f := ⌊q⌋
  let r := q - (f : ℚ)
  if r < 1 / 2 then f
  else if 1 / 2 < r then f + 1
  else if f % 2 = 0 then f else f + 1

/-- `change_pct = ((predicted_quintal - overall_avg) / overall_avg) * 100`. -/
def change_pct (pred avg : ℚ) : ℚ := (pred - avg) / avg * 100

/-- The price-alert block of `main`: `if predicted_quintal and overall_avg`
(Python truthiness: `None` and `0.0` both fail), then an alert when the
absolute relative change reaches 8 percent, rising or dropping. -/
def price_alerts (predicted_quintal : Option ℚ) (overall_avg : ℚ) : List PriceAlert :=
  match predicted_quintal with
  | none => []
  | some p =>
    if p ≠ 0 ∧ overall_avg ≠ 0 then
      let c := change_pct p overall_avg
      if 8 ≤ |c| then
        if 0 < c then [⟨true, roundHalfEven (10 * c)⟩]
        else [⟨false, roundHalfEven (10 * |c|)⟩]
      else []
    else []

/-- The post-parse re-filter in `main` (line 293):
`p.get("commodity", "").strip().lower().find(item_clean) != -1`. -/
def main_commodity_filter (item_clean : String) (p : PriceRecord) : Bool :=
  hasSub (lowerL (stripL p.commodity.toList)) item_clean.toList

/-! ## Helper lemmas -/

theorem toList_mk (l : List Char) : (⟨l⟩ : String).toList = l := rfl

theorem pyLower_toList (s : String) : (pyLower s).toList = lowerL s.toList := rfl

theorem pyStrip_toList (s : String) : (pyStrip s).toList = stripL s.toList := rfl

theorem lowerChar_idem (c : Char) : lowerChar (lowerChar c) = lowerChar c := by
  unfold lowerChar
  by_cases h : 65 ≤ c.toNat ∧ c.toNat ≤ 90
  · rw [if_pos h]
    have hv : (c.toNat + 32).isValidChar := Or.inl (by omega)
    have ht : (Char.ofNat (c.toNat + 32)).toNat = c.toNat + 32 := by
      unfold Char.ofNat
      rw [dif_pos hv]
      rfl
    have hneg : ¬ (65 ≤ (Char.ofNat (c.toNat + 32)).toNat ∧
        (Char.ofNat (c.toNat + 32)).toNat ≤ 90) := by
      rw [ht]; omega
    rw [if_neg hneg]
  · rw [if_neg h, if_neg h]

theorem lowerL_idem (l : List Char) : lowerL (lowerL l) = lowerL l := by
  simp [lowerL, List.map_map, Function.comp_def, lowerChar_idem]

theorem pyLower_idem (s : String) : pyLower (pyLower s) = pyLower s := by
  unfold pyLower
  congr 1
  exact lowerL_idem s.toList

theorem stripL_idem (l : List Char) : stripL (stripL l) = stripL l := by
  unfold stripL
  have h1 : List.dropWhile isSpaceChar
      (List.rdropWhile isSpaceChar (List.dropWhile isSpaceChar l)) =
      List.rdropWhile isSpaceChar (List.dropWhile isSpaceChar l) := by
    rcases hr : List.rdropWhile isSpaceChar (List.dropWhile isSpaceChar l) with _ | ⟨a, t⟩
    · simp
    · have hpre : List.rdropWhile isSpaceChar (List.dropWhile isSpaceChar l) <+:
          List.dropWhile isSpaceChar l := List.rdropWhile_prefix _ _
      rw [hr] at hpre
      obtain ⟨t2, ht2⟩ := hpre
      have hidem : List.dropWhile isSpaceChar (List.dropWhile isSpaceChar l) =
          List.dropWhile isSpaceChar l := List.dropWhile_idempotent _ _
      have hna : ¬ isSpaceChar a = true := by
        intro hcon
        rw [← ht2] at hidem
        rw [List.cons_append, List.dropWhile_cons, if_pos hcon] at hidem
        have hlen := congrArg List.length hidem
        rw [List.length_cons] at hlen
        have hle : (List.dropWhile isSpaceChar (t ++ t2)).length ≤ (t ++ t2).length :=
          (List.dropWhile_suffix isSpaceChar).length_le
        omega
      rw [List.dropWhile_cons, if_neg hna]
  rw [h1, List.rdropWhile_idempotent]

theorem splitWs_cons_nonspace (c : Char) (cs : List Char) (hc : isSpaceChar c = false) :
    splitWs (c :: cs) =
      ((c :: cs).takeWhile (fun x => !isSpaceChar x)) ::
        splitWs ((c :: cs).dropWhile (fun x => !isSpaceChar x)) := by
  induction cs generalizing c with
  | nil => simp [splitWs, hc]
  | cons d ds ih =>
    by_cases hd : isSpaceChar d = true
    · simp [splitWs, hc, hd]
    · have hd' : isSpaceChar d = false := by
        revert hd; cases isSpaceChar d <;> simp
      rw [show splitWs (c :: d :: ds) =
            (match splitWs (d :: ds) with
              | [] => [[c]]
              | t :: ts => (c :: t) :: ts) by
          simp [splitWs, hc, hd']]
      rw [ih d hd']
      simp [List.takeWhile_cons, List.dropWhile_cons, hc, hd']

theorem splitWs_sub_aux (n : Nat) :
    ∀ l : List Char, l.length ≤ n → ∀ t ∈ splitWs l, t <:+: l := by
  induction n with
  | zero =>
    intro l hl t ht
    have : l = [] := List.length_eq_zero.mp (Nat.le_zero.mp hl)
    subst this
    simp [splitWs] at ht
  | succ n ih =>
    intro l hl t ht
    match l with
    | [] => simp [splitWs] at ht
    | c :: cs =>
      have hcs : cs.length ≤ n := by
        rw [List.length_cons] at hl
        omega
      by_cases hc : isSpaceChar c = true
      · rw [show splitWs (c :: cs) = splitWs cs by simp [splitWs, hc]] at ht
        exact List.infix_cons (ih cs hcs t ht)
      · have hc' : isSpaceChar c = false := by
          revert hc; cases isSpaceChar c <;> simp
        rw [splitWs_cons_nonspace c cs hc'] at ht
        rcases List.mem_cons.mp ht with heq | hmem
        · exact heq ▸ (List.takeWhile_prefix _).isInfix
        · have hsuffix : (c :: cs).dropWhile (fun x => !isSpaceChar x) <:+ c :: cs :=
            List.dropWhile_suffix _
          have hlen : ((c :: cs).dropWhile (fun x => !isSpaceChar x)).length ≤ n := by
            rw [List.dropWhile_cons, if_pos (by simp [hc'])]
            have := (List.dropWhile_suffix (l := cs) (fun x => !isSpaceChar x)).length_le
            omega
          exact (ih _ hlen t hmem).trans hsuffix.isInfix

theorem splitWs_sub (l t : List Char) (ht : t ∈ splitWs l) : t <:+: l :=
  splitWs_sub_aux l.length l le_rfl t ht

theorem hasSub_iff (big small : List Char) : hasSub big small = true ↔ small <:+: big := by
  induction big with
  | nil =>
    by_cases hp : small.isPrefixOf ([] : List Char) = true
    · have hpre : small <+: [] := List.isPrefixOf_iff_prefix.mp hp
      simp [hasSub, hp, hpre.isInfix]
    · have hp' : small.isPrefixOf ([] : List Char) = false := by
        revert hp; cases small.isPrefixOf ([] : List Char) <;> simp
      have hsm : small ≠ [] := by
        intro h; subst h; simp [List.isPrefixOf] at hp'
      simp [hasSub, hp', List.infix_nil, hsm]
  | cons c t ih =>
    by_cases hp : small.isPrefixOf (c :: t) = true
    · have hpre : small <+: c :: t := List.isPrefixOf_iff_prefix.mp hp
      simp [hasSub, hp, hpre.isInfix]
    · have hnp : ¬ small <+: c :: t := fun hcon =>
        hp (List.isPrefixOf_iff_prefix.mpr hcon)
      have hp' : small.isPrefixOf (c :: t) = false := by
        revert hp; cases small.isPrefixOf (c :: t) <;> simp
      rw [show hasSub (c :: t) small = hasSub t small by simp [hasSub, hp']]
      rw [ih, List.infix_cons_iff]
      constructor
      · exact Or.inr
      · rintro (h | h)
        · exact absurd h hnp
        · exact h

theorem matchesQ_sub (q f : String) (h : matchesQ q f = true) :
    q.toList <:+: lowerL (stripL f.toList) := by
  unfold matchesQ at h
  simp at h
  rcases h.2 with (heq | hmem) | hpre
  · show q.data <:+: lowerL (stripL f.toList)
    rw [heq]
    exact List.infix_refl _
  · exact splitWs_sub _ _ hmem
  · exact hpre.isInfix

theorem mem_smart_fetch_matches (item now : String) (resp : ApiResult)
    (cache : Option CacheEntry) (r : RawRecord)
    (hr : r ∈ (smart_fetch_records item resp now cache).1) :
    matchesQ (pyLower (pyStrip item)) (commodityRaw r) = true := by
  unfold smart_fetch_records at hr
  by_cases hv : (((fetch_mandi_records_from_api resp now cache).1).filter
      (fun r => matchesQ (pyLower (pyStrip item)) (commodityRaw r))).isEmpty
  · rw [if_neg (by simp [hv])] at hr
    by_cases ha : ((fetch_mandi_records_from_api resp now cache).1).isEmpty
    · rw [if_neg (by simp [ha])] at hr
      unfold safe_load_cached_for_commodity at hr
      by_cases hcc : (load_cache (fetch_mandi_records_from_api resp now cache).2).isEmpty
      · rw [if_pos hcc] at hr
        simp at hr
      · rw [if_neg hcc] at hr
        have := (List.mem_filter.mp hr).2
        rwa [pyLower_idem] at this
    · rw [if_pos (by simp [ha])] at hr
      simp at hr
  · rw [if_pos (by simp [hv])] at hr
    exact (List.mem_filter.mp hr).2

theorem foldl_min_le_init (xs : List ℚ) : ∀ x : ℚ, xs.foldl min x ≤ x := by
  induction xs with
  | nil => intro x; simp
  | cons a t ih =>
    intro x
    calc (a :: t).foldl min x = t.foldl min (min x a) := rfl
    _ ≤ min x a := ih _
    _ ≤ x := min_le_left _ _

theorem foldl_min_le_mem (xs : List ℚ) : ∀ x y : ℚ, y ∈ xs → xs.foldl min x ≤ y := by
  induction xs with
  | nil => intro x y hy; simp at hy
  | cons a t ih =>
    intro x y hy
    rcases List.mem_cons.mp hy with h | h
    · subst h
      calc (y :: t).foldl min x = t.foldl min (min x y) := rfl
      _ ≤ min x y := foldl_min_le_init _ _
      _ ≤ y := min_le_right _ _
    · exact ih (min x a) y h

theorem le_foldl_max_init (xs : List ℚ) : ∀ x : ℚ, x ≤ xs.foldl max x := by
  induction xs with
  | nil => intro x; simp
  | cons a t ih =>
    intro x
    calc x ≤ max x a := le_max_left _ _
    _ ≤ t.foldl max (max x a) := ih _
    _ = (a :: t).foldl max x := rfl

theorem le_foldl_max_mem (xs : List ℚ) : ∀ x y : ℚ, y ∈ xs → y ≤ xs.foldl max x := by
  induction xs with
  | nil => intro x y hy; simp at hy
  | cons a t ih =>
    intro x y hy
    rcases List.mem_cons.mp hy with h | h
    · subst h
      calc y ≤ max x y := le_max_right _ _
      _ ≤ t.foldl max (max x y) := le_foldl_max_init _ _
      _ = (y :: t).foldl max x := rfl
    · exact ih (max x a) y h

theorem le_meanQ (l : List ℚ) (hne : l ≠ []) (m : ℚ) (h : ∀ y ∈ l, m ≤ y) :
    m ≤ meanQ l := by
  have hlen : (0 : ℚ) < (l.length : ℚ) := by
    have : 0 < l.length := List.length_pos.mpr hne
    exact_mod_cast this
  have hsum : (l.length : ℚ) * m ≤ l.sum := by
    have := List.card_nsmul_le_sum l m h
    rwa [nsmul_eq_mul] at this
  rw [meanQ, le_div_iff₀ hlen]
  linarith [hsum]

theorem meanQ_le (l : List ℚ) (hne : l ≠ []) (m : ℚ) (h : ∀ y ∈ l, y ≤ m) :
    meanQ l ≤ m := by
  have hlen : (0 : ℚ) < (l.length : ℚ) := by
    have : 0 < l.length := List.length_pos.mpr hne
    exact_mod_cast this
  have hsum : l.sum ≤ (l.length : ℚ) * m := by
    have := List.sum_le_card_nsmul l m h
    rwa [nsmul_eq_mul] at this
  rw [meanQ, div_le_iff₀ hlen]
  linarith [hsum]

theorem length_insertByDate (x : DateT × ℚ) (l : List (DateT × ℚ)) :
    (insertByDate x l).length = l.length + 1 := by
  induction l with
  | nil => rfl
  | cons y ys ih =>
    unfold insertByDate
    by_cases h : dateLe x.1 y.1 = true
    · rw [if_pos h]; rfl
    · rw [if_neg h, List.length_cons, ih, List.length_cons]

theorem length_sortByDate (l : List (DateT × ℚ)) :
    (sortByDate l).length = l.length := by
  induction l with
  | nil => rfl
  | cons x xs ih =>
    unfold sortByDate
    rw [length_insertByDate, ih, List.length_cons]

theorem length_addKeyed {κ : Type} [DecidableEq κ] (acc : List (κ × List ℚ))
    (k : κ) (v : ℚ) : (addKeyed acc k v).length ≤ acc.length + 1 := by
  induction acc with
  | nil => simp [addKeyed]
  | cons g rest ih =>
    rcases g with ⟨k0, vs⟩
    unfold addKeyed
    by_cases h : k0 = k
    · rw [if_pos h]
      simp
    · rw [if_neg h, List.length_cons, List.length_cons]
      have := ih
      omega

theorem length_groupKeyed_le {κ : Type} [DecidableEq κ] (l : List (κ × ℚ)) :
    (groupKeyed l).length ≤ l.length := by
  have haux : ∀ (l : List (κ × ℚ)) (acc : List (κ × List ℚ)),
      (l.foldl (fun acc kv => addKeyed acc kv.1 kv.2) acc).length ≤ acc.length + l.length := by
    intro l
    induction l with
    | nil => intro acc; simp
    | cons kv rest ih =>
      intro acc
      calc ((kv :: rest).foldl (fun acc kv => addKeyed acc kv.1 kv.2) acc).length
          = (rest.foldl (fun acc kv => addKeyed acc kv.1 kv.2) (addKeyed acc kv.1 kv.2)).length := rfl
      _ ≤ (addKeyed acc kv.1 kv.2).length + rest.length := ih _
      _ ≤ (acc.length + 1) + rest.length := by
          have := length_addKeyed acc kv.1 kv.2
          omega
      _ = acc.length + (kv :: rest).length := by simp; omega
  have := haux l []
  simpa using this

theorem length_lastN {α : Type} (n : Nat) (l : List α) :
    (lastN n l).length = min n l.length := by
  unfold lastN
  rw [List.length_drop]
  omega

theorem diffs_sum (l : List ℚ) (hne : l ≠ []) :
    (List.zipWith (fun a b => b - a) l l.tail).sum = l.getLastD 0 - l.headD 0 := by
  induction l with
  | nil => exact absurd rfl hne
  | cons x t ih =>
    match t with
    | [] => simp
    | y :: t2 =>
      have hrec := ih (by simp)
      calc (List.zipWith (fun a b => b - a) (x :: y :: t2) (x :: y :: t2).tail).sum
          = (y - x) + (List.zipWith (fun a b => b - a) (y :: t2) (y :: t2).tail).sum := by
            simp [List.zipWith]
      _ = (y - x) + ((y :: t2).getLastD 0 - y) := by rw [hrec]; simp
      _ = (x :: y :: t2).getLastD 0 - (x :: y :: t2).headD 0 := by
            rw [List.getLastD_cons, List.getLastD_cons, List.getLastD_cons]
            simp only [List.headD_cons]
            ring

theorem fetch_fst (resp : ApiResult) (now : String) (cache : Option CacheEntry) :
    (fetch_mandi_records_from_api resp now cache).1 = apiRecordsOf resp := by
  cases resp with
  | failure => rfl
  | success recs =>
    show (if recs.isEmpty = true then (recs, cache) else (recs, some ⟨now, recs⟩)).1 = recs
    split <;> rfl

theorem fetch_snd_empty (resp : ApiResult) (now : String) (cache : Option CacheEntry)
    (h : apiRecordsOf resp = []) :
    (fetch_mandi_records_from_api resp now cache).2 = cache := by
  cases resp with
  | failure => rfl
  | success recs =>
    have hrecs : recs = [] := h
    subst hrecs
    rfl

theorem smart_fetch_snd (item now : String) (resp : ApiResult) (cache : Option CacheEntry) :
    (smart_fetch_records item resp now cache).2 =
      (fetch_mandi_records_from_api resp now cache).2 := by
  simp only [smart_fetch_records]
  split
  · rfl
  · split <;> rfl

theorem safe_load_eq_filter (item : String) (cache : Option CacheEntry) :
    safe_load_cached_for_commodity item cache =
      (load_cache cache).filter (fun r => matchesQ (pyLower item) (commodityRaw r)) := by
  unfold safe_load_cached_for_commodity
  by_cases hcc : (load_cache cache).isEmpty
  · rw [if_pos hcc, List.isEmpty_iff.mp hcc]
    rfl
  · rw [if_neg hcc]

theorem smart_fetch_empty_api (item now : String) (resp : ApiResult)
    (cache : Option CacheEntry) (h : apiRecordsOf resp = []) :
    (smart_fetch_records item resp now cache).1 =
      safe_load_cached_for_commodity (pyLower (pyStrip item)) cache := by
  simp only [smart_fetch_records]
  rw [fetch_fst, h]
  rw [fetch_snd_empty resp now cache h]
  simp

/-! ## Claim C1 -/

/-- C1: for every item string, if the live fetch returns a non-empty record
list but no record's commodity field matches the item under the Matcher,
`smart_fetch_records` returns the empty list whatever the cache holds
(so without using the cache); and if the live fetch returns the empty
list, `smart_fetch_records` reads the cache and returns exactly the
cached records whose commodity field matches the item under the Matcher. -/
theorem c1_fallback_policy (item now : String) (resp : ApiResult) :
    (∀ recs, resp = ApiResult.success recs → recs ≠ [] →
        recs.filter (fun r => matchesQ (pyLower (pyStrip item)) (commodityRaw r)) = [] →
        ∀ cache, (smart_fetch_records item resp now cache).1 = [])
    ∧ (apiRecordsOf resp = [] →
        ∀ cache, (smart_fetch_records item resp now cache).1 =
          (load_cache cache).filter
            (fun r => matchesQ (pyLower (pyStrip item)) (commodityRaw r))) := by
  constructor
  · rintro recs rfl hne hfil cache
    have hie : recs.isEmpty = false := List.isEmpty_eq_false.mpr hne
    simp only [smart_fetch_records]
    rw [fetch_fst]
    rw [show apiRecordsOf (ApiResult.success recs) = recs from rfl]
    rw [hfil]
    simp [hie]
  · intro hapi cache
    rw [smart_fetch_empty_api item now resp cache hapi, safe_load_eq_filter, pyLower_idem]

/-- Witness for C1 at concrete inputs: a live answer containing only an
onion record makes a tomato query return empty even though the cache
holds a tomato record, while a failed live call returns the matching
cached tomato record. -/
theorem c1_fallback_policy_witness :
    (smart_fetch_records "tomato"
        (ApiResult.success [⟨some "Onion", none, none, none, none, none, some "5",
          none, none, none, none⟩])
        "T1"
        (some ⟨"T0", [⟨some "Tomato", none, none, none, none, none, some "7",
          none, none, none, none⟩]⟩)).1 = []
    ∧ (smart_fetch_records "tomato" ApiResult.failure "T1"
        (some ⟨"T0", [⟨some "Tomato", none, none, none, none, none, some "7",
          none, none, none, none⟩,
          ⟨some "Onion", none, none, none, none, none, some "5",
          none, none, none, none⟩]⟩)).1 =
        [⟨some "Tomato", none, none, none, none, none, some "7",
          none, none, none, none⟩] := by
  constructor
  · exact (c1_fallback_policy "tomato" "T1" _).1 _ rfl (by decide) (by decide) _
  · rw [(c1_fallback_policy "tomato" "T1" ApiResult.failure).2 rfl _]
    decide

/-! ## Claim C2 -/

/-- C2 counterexample: the program's match test strips the candidate field
before comparing, the claim's literal reading does not; for the query
"tom" and the field " tomato" (leading space) the program matches by
prefix while the claim as stated does not match. -/
theorem c2_counterexample :
    matchesQ (pyLower (pyStrip "tom")) " tomato" = true
    ∧ matchesClaimLiteral "tom" " tomato" = false := by
  decide

/-- C2 amended: the match test returns true iff, after stripping
surrounding whitespace from both the query and the candidate field and
lowercasing both, the field is non-empty and the query equals the field,
is one of its whitespace-separated tokens, or is a prefix of it. -/
theorem c2_amended_matcher (q f : String) :
    matchesQ (pyLower (pyStrip q)) f = true ↔ matchesAmendedSpec q f := by
  have hq : (pyLower (pyStrip q)).data = lowerL (stripL q.data) := rfl
  by_cases hc : lowerL (stripL f.data) = []
  · simp [matchesQ, matchesAmendedSpec, hc]
  · simp [matchesQ, matchesAmendedSpec, hc, hq]
    tauto

/-! ## Claim C8 -/

/-- C8: the cache is written exactly when the live fetch succeeds with a
non-empty record list; it is then wholly overwritten with that full list
(before any commodity matching — `smart_fetch_records` leaves the fetch's
cache state untouched in every branch); on a failed fetch or an empty
live result the cache state is unchanged. -/
theorem c8_cache_write_policy (resp : ApiResult) (now : String) (cache : Option CacheEntry) :
    (∀ recs, resp = ApiResult.success recs → recs ≠ [] →
        (fetch_mandi_records_from_api resp now cache).2 = some ⟨now, recs⟩
        ∧ (fetch_mandi_records_from_api resp now cache).1 = recs
        ∧ ∀ item, (smart_fetch_records item resp now cache).2 = some ⟨now, recs⟩)
    ∧ (apiRecordsOf resp = [] →
        (fetch_mandi_records_from_api resp now cache).2 = cache
        ∧ ∀ item, (smart_fetch_records item resp now cache).2 = cache) := by
  constructor
  · rintro recs rfl hne
    have hie : recs.isEmpty = false := List.isEmpty_eq_false.mpr hne
    have hsnd : (fetch_mandi_records_from_api (ApiResult.success recs) now cache).2 =
        some ⟨now, recs⟩ := by
      show (if recs.isEmpty = true then (recs, cache)
        else (recs, some ⟨now, recs⟩)).2 = some ⟨now, recs⟩
      rw [hie]
      rfl
    refine ⟨hsnd, fetch_fst _ _ _, fun item => ?_⟩
    rw [smart_fetch_snd, hsnd]
  · intro hapi
    refine ⟨fetch_snd_empty resp now cache hapi, fun item => ?_⟩
    rw [smart_fetch_snd, fetch_snd_empty resp now cache hapi]

/-- Witness for C8 at concrete inputs: a successful one-record fetch
overwrites the cache with that record; a failed fetch leaves it alone. -/
theorem c8_cache_write_policy_witness :
    (smart_fetch_records "tomato"
        (ApiResult.success [⟨some "Tomato", none, none, none, none, none, some "7",
          none, none, none, none⟩]) "T1"
        (some ⟨"T0", []⟩)).2 =
      some ⟨"T1", [⟨some "Tomato", none, none, none, none, none, some "7",
        none, none, none, none⟩]⟩
    ∧ (smart_fetch_records "tomato" ApiResult.failure "T1" (some ⟨"T0", []⟩)).2 =
      some ⟨"T0", []⟩ := by
  constructor
  · exact ((c8_cache_write_policy _ "T1" _).1 _ rfl (by decide)).2.2 "tomato"
  · exact ((c8_cache_write_policy ApiResult.failure "T1" _).2 rfl).2 "tomato"

/-! ## Claim C9 -/

/-- C9: a match under the exact / token / prefix Matcher implies the query
occurs as a substring of the stripped-and-lowercased commodity field;
consequently, for the normalized item `main` passes around (already
stripped and lowercased), the post-parse substring re-filter of `main`
removes no record from the output of `smart_fetch_records`, making the
"no match, suggest alternatives" branch unreachable on that path. -/
theorem c9_refilter_removes_nothing (item now : String) (resp : ApiResult)
    (cache : Option CacheEntry)
    (hs : pyStrip item = item) (hl : pyLower item = item) :
    (∀ q f : String, matchesQ q f = true → q.toList <:+: lowerL (stripL f.toList))
    ∧ (parse_price_records (smart_fetch_records item resp now cache).1).filter
        (main_commodity_filter item)
      = parse_price_records (smart_fetch_records item resp now cache).1 := by
  refine ⟨matchesQ_sub, List.filter_eq_self.mpr ?_⟩
  intro p hp
  obtain ⟨r, hr, hpr⟩ := List.mem_filterMap.mp hp
  have hmatch : matchesQ item (commodityRaw r) = true := by
    have := mem_smart_fetch_matches item now resp cache r hr
    rwa [hs, hl] at this
  have hpr' : (if (pyOrStr r.modal_price (pyOrStr r.modalprice "")).isEmpty = true then none
      else
        match parseFloat (pyOrStr r.modal_price (pyOrStr r.modalprice "")) with
        | none => none
        | some price =>
          some (⟨pyStrip (commodityRaw r),
            pyStrip (pyOrStr r.state_name (pyOrStr r.state "")),
            pyStrip (pyOrStr r.market (pyOrStr r.market_name "")),
            price,
            pyStrip (pyOrStr r.arrival_date (pyOrStr r.date
              (pyOrStr r.date_of_arrival "")))⟩ : PriceRecord)) = some p := hpr
  have hcomm : p.commodity = pyStrip (commodityRaw r) := by
    by_cases hm : (pyOrStr r.modal_price (pyOrStr r.modalprice "")).isEmpty = true
    · rw [if_pos hm] at hpr'
      exact absurd hpr' (by simp)
    · rw [if_neg hm] at hpr'
      rcases hpf : parseFloat (pyOrStr r.modal_price (pyOrStr r.modalprice "")) with _ | price
      · rw [hpf] at hpr'
        exact absurd hpr' (by simp)
      · rw [hpf] at hpr'
        rw [← Option.some.inj hpr']
  unfold main_commodity_filter
  rw [hcomm, pyStrip_toList, stripL_idem]
  exact (hasSub_iff _ _).mpr (matchesQ_sub item (commodityRaw r) hmatch)

/-- Witness for C9 at concrete inputs: with the normalized item "tomato",
a successful fetch of one matching record parses to records that all
survive the re-filter. -/
theorem c9_refilter_removes_nothing_witness :
    (parse_price_records (smart_fetch_records "tomato"
        (ApiResult.success [⟨some "Tomato", none, some "Goa", none, some "Mapusa",
          none, some "700", none, some "2024-01-05", none, none⟩]) "T1" none).1).filter
        (main_commodity_filter "tomato")
      = parse_price_records (smart_fetch_records "tomato"
        (ApiResult.success [⟨some "Tomato", none, some "Goa", none, some "Mapusa",
          none, some "700", none, some "2024-01-05", none, none⟩]) "T1" none).1 :=
  (c9_refilter_removes_nothing "tomato" "T1"
    (ApiResult.success [⟨some "Tomato", none, some "Goa", none, some "Mapusa",
      none, some "700", none, some "2024-01-05", none, none⟩]) none
    (by decide) (by decide)).2

/-! ## Claim C6 -/

/-- C6 counterexample: two records with the same price give a standard
deviation of exactly zero with a count of 2, so "stddev is 0.0 exactly
when count == 1" fails in the only-if direction (`stddevSq` is the square
of the reported stddev, and a square root is zero iff its argument is). -/
theorem c6_counterexample :
    ((compute_state_aggregates [⟨"Tomato", "Goa", "M", 5, ""⟩,
        ⟨"Tomato", "Goa", "M", 5, ""⟩]).2.map Stats.stddevSq = some 0)
    ∧ ((compute_state_aggregates [⟨"Tomato", "Goa", "M", 5, ""⟩,
        ⟨"Tomato", "Goa", "M", 5, ""⟩]).2.map Stats.count = some 2) := by
  constructor
  · norm_num [compute_state_aggregates, sampleVarQ, meanQ]
  · norm_num [compute_state_aggregates]

/-- C6 amended: for every non-empty record list, the global stats satisfy
min ≤ avg ≤ max and count equals the input length, and the standard
deviation is 0.0 whenever count is 1 (it can also be 0.0 for count > 1
when all prices coincide, so "exactly when" is weakened to "when"). -/
theorem c6_amended_stats_bounds (parsed : List PriceRecord) (hne : parsed ≠ []) :
    ∃ s : Stats, (compute_state_aggregates parsed).2 = some s
      ∧ s.min ≤ s.avg ∧ s.avg ≤ s.max ∧ s.count = parsed.length
      ∧ (s.count = 1 → s.stddevSq = 0) := by
  rcases parsed with _ | ⟨p, rest⟩
  · exact absurd rfl hne
  · have hlcons : (p :: rest).map (fun q => q.price) =
        p.price :: rest.map (fun q => q.price) := rfl
    have hstats : (compute_state_aggregates (p :: rest)).2 =
        some ⟨(rest.map (fun q => q.price)).foldl min p.price,
          (rest.map (fun q => q.price)).foldl max p.price,
          meanQ ((p :: rest).map (fun q => q.price)),
          ((p :: rest).map (fun q => q.price)).length,
          if 1 < ((p :: rest).map (fun q => q.price)).length then
            sampleVarQ ((p :: rest).map (fun q => q.price)) else 0⟩ := rfl
    refine ⟨_, hstats, ?_, ?_, ?_, ?_⟩
    · apply le_meanQ _ (by simp)
      intro y hy
      rw [hlcons] at hy
      rcases List.mem_cons.mp hy with h | h
      · rw [h]
        exact foldl_min_le_init _ _
      · exact foldl_min_le_mem _ _ _ h
    · apply meanQ_le _ (by simp)
      intro y hy
      rw [hlcons] at hy
      rcases List.mem_cons.mp hy with h | h
      · rw [h]
        exact le_foldl_max_init _ _
      · exact le_foldl_max_mem _ _ _ h
    · simp
    · intro h1
      simp only at h1
      rw [if_neg (by omega)]

/-- Witness for C6 at a concrete input: two records of prices 4 and 6. -/
theorem c6_amended_stats_bounds_witness :
    ([⟨"Tomato", "Goa", "M", 4, ""⟩, ⟨"Tomato", "Goa", "M", 6, ""⟩] :
        List PriceRecord) ≠ []
    ∧ (compute_state_aggregates [⟨"Tomato", "Goa", "M", 4, ""⟩,
        ⟨"Tomato", "Goa", "M", 6, ""⟩]).2.map Stats.count = some 2 := by
  constructor
  · decide
  · obtain ⟨s, hs, _, _, hcount, _⟩ :=
      c6_amended_stats_bounds [⟨"Tomato", "Goa", "M", 4, ""⟩,
        ⟨"Tomato", "Goa", "M", 6, ""⟩] (by decide)
    rw [hs]
    simp [hcount]

/-! ## Claim C3 -/

/-- The branch condition of `simple_trend_predict`: the primary path runs
iff at least two distinct day buckets exist; otherwise the raw fallback. -/
theorem stp_ite (parsed : List PriceRecord) :
    simple_trend_predict parsed =
      if 2 ≤ (dayItems parsed).length then primaryValue parsed
      else fallbackValue parsed := by
  have hP : primaryValue parsed =
      if 2 ≤ (lastN 7 (dayItems parsed)).length then
        some (olsPredict (lastN 7 (dayItems parsed))) else none := rfl
  by_cases h : 2 ≤ (dayItems parsed).length
  · have hr : 2 ≤ (lastN 7 (dayItems parsed)).length := by
      rw [length_lastN]; omega
    have hsome : primaryValue parsed = some (olsPredict (lastN 7 (dayItems parsed))) := by
      rw [hP, if_pos hr]
    rw [if_pos h]
    unfold simple_trend_predict
    rw [hsome]
  · have hr : ¬ 2 ≤ (lastN 7 (dayItems parsed)).length := by
      rw [length_lastN]; omega
    have hnone : primaryValue parsed = none := by
      rw [hP, if_neg hr]
    rw [if_neg h]
    unfold simple_trend_predict
    rw [hnone]

/-- Concrete input for C3: one record with a parseable date, two without. -/
def c3Records : List PriceRecord :=
  [⟨"Tomato", "Goa", "M", 100, "2024-01-01"⟩,
   ⟨"Tomato", "Goa", "M", 200, ""⟩,
   ⟨"Tomato", "Goa", "M", 300, ""⟩]

/-- C3 counterexample: with exactly one parseable date the pair list is
non-empty, yet the prediction does not come from the date-bucketed
primary path (which yields nothing here): it is the raw fallback value. -/
theorem c3_counterexample :
    extractPairs c3Records ≠ []
    ∧ primaryValue c3Records = none
    ∧ simple_trend_predict c3Records = some 400
    ∧ fallbackValue c3Records = some 400 := by
  have hp : primaryValue c3Records = none := by decide
  have hf : fallbackValue c3Records = some 400 := by
    norm_num [fallbackValue, c3Records, lastN, meanQ, max_def]
  refine ⟨by decide, hp, ?_, hf⟩
  unfold simple_trend_predict
  rw [hp, hf]

/-- C3 amended: the fallback path is used exactly when fewer than two
distinct parseable dates (day buckets) are extracted; with at least two
buckets the result comes from the date-bucketed primary path.  (The claim
said "zero pairs extracted": one single bucket also falls back.) -/
theorem c3_amended_fallback_condition (parsed : List PriceRecord) :
    simple_trend_predict parsed =
      if 2 ≤ (dayItems parsed).length then primaryValue parsed
      else fallbackValue parsed :=
  stp_ite parsed

/-! ## Claim C5 -/

/-- C5: with fewer than two usable data points under both paths — fewer
than two day buckets and fewer than two raw prices — the predictor
returns `none`; in particular it does so on any single-record input. -/
theorem c5_insufficient_data_none (parsed : List PriceRecord) :
    ((dayItems parsed).length ≤ 1 → parsed.length ≤ 1 →
      simple_trend_predict parsed = none)
    ∧ (parsed.length = 1 → simple_trend_predict parsed = none) := by
  have hbuckets_le : (dayItems parsed).length ≤ parsed.length := by
    unfold dayItems
    rw [length_sortByDate, List.length_map]
    calc (groupKeyed (extractPairs parsed)).length
        ≤ (extractPairs parsed).length := length_groupKeyed_le _
    _ ≤ parsed.length := List.length_filterMap_le _ _
  have hmain : (dayItems parsed).length ≤ 1 → parsed.length ≤ 1 →
      simple_trend_predict parsed = none := by
    intro hb hp
    rw [stp_ite, if_neg (by omega)]
    simp only [fallbackValue]
    rw [if_neg (by rw [List.length_map]; omega)]
  exact ⟨hmain, fun h1 => hmain (by omega) (by omega)⟩

/-- Witness for C5 at a concrete one-record input. -/
theorem c5_insufficient_data_none_witness :
    simple_trend_predict [(⟨"Tomato", "Goa", "M", 100, "2024-01-01"⟩ : PriceRecord)] = none :=
  (c5_insufficient_data_none [⟨"Tomato", "Goa", "M", 100, "2024-01-01"⟩]).2 rfl

/-! ## Claim C10 -/

/-- The raw price window of the fallback path: the last `min(len, window)`
prices in input order. -/
def windowOf (parsed : List PriceRecord) (days_back : Nat := 7) : List ℚ :=
  lastN (min (parsed.map (fun p => p.price)).length days_back)
    (parsed.map (fun p => p.price))

/-- C10: on the fallback path with a window of at least two raw prices,
averaging the consecutive differences telescopes: the returned value is
`max(0, last + (last - first) / (k - 1))` over the windowed sequence, so
only its first and last prices affect the prediction. -/
theorem c10_fallback_telescopes (parsed : List PriceRecord)
    (h : 2 ≤ (windowOf parsed).length) :
    fallbackValue parsed = some (max ((windowOf parsed).getLastD 0 +
      ((windowOf parsed).getLastD 0 - (windowOf parsed).headD 0) /
        (((windowOf parsed).length : ℚ) - 1)) 0) := by
  have hwlen : (windowOf parsed).length =
      min ((parsed.map (fun p => p.price)).length) 7 := by
    unfold windowOf
    rw [length_lastN]
    omega
  have hraw2 : 2 ≤ (parsed.map (fun p => p.price)).length := by
    rw [hwlen] at h
    omega
  have hwne : windowOf parsed ≠ [] := by
    intro hnil
    rw [hnil] at h
    simp at h
  have hfb : fallbackValue parsed =
      some (max ((windowOf parsed).getLastD 0 +
        (if (List.zipWith (fun a b => b - a) (windowOf parsed)
              (windowOf parsed).tail).isEmpty = true then 0
         else meanQ (List.zipWith (fun a b => b - a) (windowOf parsed)
              (windowOf parsed).tail))) 0) := by
    simp only [fallbackValue]
    rw [if_pos hraw2]
    rfl
  rw [hfb]
  have htl : (windowOf parsed).tail.length = (windowOf parsed).length - 1 :=
    List.length_tail _
  have hdlen : (List.zipWith (fun a b => b - a) (windowOf parsed)
      (windowOf parsed).tail).length = (windowOf parsed).length - 1 := by
    rw [List.length_zipWith, htl]
    omega
  have hdne : (List.zipWith (fun a b => b - a) (windowOf parsed)
      (windowOf parsed).tail).isEmpty = false := by
    rw [List.isEmpty_eq_false]
    intro hnil
    have hzero := congrArg List.length hnil
    rw [hdlen] at hzero
    simp at hzero
    omega
  have hif : (if (List.zipWith (fun a b => b - a) (windowOf parsed)
        (windowOf parsed).tail).isEmpty = true then (0:ℚ)
      else meanQ (List.zipWith (fun a b => b - a) (windowOf parsed)
        (windowOf parsed).tail)) =
      meanQ (List.zipWith (fun a b => b - a) (windowOf parsed)
        (windowOf parsed).tail) := by
    rw [hdne]
    simp
  rw [hif]
  have hmean : meanQ (List.zipWith (fun a b => b - a) (windowOf parsed)
      (windowOf parsed).tail) =
      ((windowOf parsed).getLastD 0 - (windowOf parsed).headD 0) /
        (((windowOf parsed).length : ℚ) - 1) := by
    rw [meanQ, diffs_sum (windowOf parsed) hwne, hdlen]
    congr 1
    rw [Nat.cast_sub (by omega), Nat.cast_one]
  rw [hmean]

/-- Concrete input for the C10 witness. -/
def c10Records : List PriceRecord :=
  [⟨"Tomato", "Goa", "M", 100, ""⟩,
   ⟨"Tomato", "Goa", "M", 200, ""⟩,
   ⟨"Tomato", "Goa", "M", 400, ""⟩]

/-- Witness for C10: window [100, 200, 400], prediction
400 + (400 - 100) / 2 = 550. -/
theorem c10_fallback_telescopes_witness :
    2 ≤ (windowOf c10Records).length ∧ fallbackValue c10Records = some 550 := by
  constructor
  · decide
  · rw [c10_fallback_telescopes c10Records (by decide)]
    norm_num [windowOf, c10Records, lastN, max_def]

/-! ## Claim C4 -/

/-- C4 counterexample: the predictor can legitimately return 0.0 (its
clamp), and then a prediction exists and the relative change from a
positive average is -100 percent, far beyond the 8 percent threshold,
yet no alert is emitted because the code's truthiness test
`if predicted_quintal and overall_avg` treats 0.0 as absent. -/
theorem c4_counterexample :
    price_alerts (some 0) 50 = [] ∧ (8:ℚ) ≤ |change_pct 0 50| := by
  constructor
  · norm_num [price_alerts]
  · norm_num [change_pct]

/-- C4 amended: a price alert is emitted iff a prediction exists, the
predicted price is nonzero, the current average is nonzero, and the
relative change is at least 8 percent in absolute value; the alert is
directional and carries the percentage rounded to one decimal place. -/
theorem c4_amended_alert_rule (v avg : ℚ) :
    price_alerts none avg = []
    ∧ price_alerts (some v) avg =
        (if v ≠ 0 ∧ avg ≠ 0 ∧ 8 ≤ |change_pct v avg| then
          [⟨decide (0 < change_pct v avg), roundHalfEven (10 * |change_pct v avg|)⟩]
        else []) := by
  refine ⟨rfl, ?_⟩
  simp only [price_alerts]
  by_cases h1 : v ≠ 0 ∧ avg ≠ 0
  · by_cases h2 : 8 ≤ |change_pct v avg|
    · by_cases h3 : 0 < change_pct v avg
      · rw [if_pos h1, if_pos h2, if_pos h3,
          if_pos (show v ≠ 0 ∧ avg ≠ 0 ∧ 8 ≤ |change_pct v avg| from ⟨h1.1, h1.2, h2⟩)]
        simp [h3, abs_of_pos h3]
      · rw [if_pos h1, if_pos h2, if_neg h3,
          if_pos (show v ≠ 0 ∧ avg ≠ 0 ∧ 8 ≤ |change_pct v avg| from ⟨h1.1, h1.2, h2⟩)]
        simp [h3]
    · rw [if_pos h1, if_neg h2,
        if_neg (show ¬ (v ≠ 0 ∧ avg ≠ 0 ∧ 8 ≤ |change_pct v avg|) by tauto)]
  · rw [if_neg h1,
      if_neg (show ¬ (v ≠ 0 ∧ avg ≠ 0 ∧ 8 ≤ |change_pct v avg|) by tauto)]

/-! ## Claim C7 -/

/-- Every parsed record's commodity is the trimmed commodity field of the
raw record it came from. -/
theorem parse_commodity_src (records : List RawRecord) (p : PriceRecord)
    (hp : p ∈ parse_price_records records) :
    ∃ r ∈ records, p.commodity = pyStrip (commodityRaw r) := by
  obtain ⟨r, hr, hpr⟩ := List.mem_filterMap.mp hp
  refine ⟨r, hr, ?_⟩
  have hpr' : (if (pyOrStr r.modal_price (pyOrStr r.modalprice "")).isEmpty = true then none
      else
        match parseFloat (pyOrStr r.modal_price (pyOrStr r.modalprice "")) with
        | none => none
        | some price =>
          some (⟨pyStrip (commodityRaw r),
            pyStrip (pyOrStr r.state_name (pyOrStr r.state "")),
            pyStrip (pyOrStr r.market (pyOrStr r.market_name "")),
            price,
            pyStrip (pyOrStr r.arrival_date (pyOrStr r.date
              (pyOrStr r.date_of_arrival "")))⟩ : PriceRecord)) = some p := hpr
  by_cases hm : (pyOrStr r.modal_price (pyOrStr r.modalprice "")).isEmpty = true
  · rw [if_pos hm] at hpr'
    exact absurd hpr' (by simp)
  · rw [if_neg hm] at hpr'
    rcases hpf : parseFloat (pyOrStr r.modal_price (pyOrStr r.modalprice "")) with _ | price
    · rw [hpf] at hpr'
      exact absurd hpr' (by simp)
    · rw [hpf] at hpr'
      rw [← Option.some.inj hpr']

/-- C7 counterexample: a raw record with no commodity field but a numeric
price is kept by the parser, producing a PriceRecord whose commodity
string is empty — the claimed invariant does not hold for every input. -/
theorem c7_counterexample :
    (parse_price_records [⟨none, none, none, none, none, none, some "5",
        none, none, none, none⟩]).map PriceRecord.commodity = [""] := by
  decide

/-- C7 amended: every PriceRecord produced from raw records whose
commodity field (under either alias) is non-empty after trimming has a
non-empty commodity; in general the parser copies the trimmed field,
which is empty when both aliases are missing or empty. -/
theorem c7_amended_commodity_nonempty (records : List RawRecord)
    (h : ∀ r ∈ records, pyStrip (commodityRaw r) ≠ "") :
    ∀ p ∈ parse_price_records records, p.commodity ≠ "" := by
  intro p hp
  obtain ⟨r, hr, hcomm⟩ := parse_commodity_src records p hp
  rw [hcomm]
  exact h r hr

/-- Witness for C7 at a concrete input. -/
theorem c7_amended_commodity_nonempty_witness :
    (⟨"Tomato", "", "", 5, ""⟩ : PriceRecord).commodity ≠ "" :=
  c7_amended_commodity_nonempty
    [⟨some "Tomato", none, none, none, none, none, some "5", none, none, none, none⟩]
    (by decide) ⟨"Tomato", "", "", 5, ""⟩ (by decide)

end MandiAdvisor
